import Mathlib

/-!
Verification of the two core engines of the Wall Engenharia proposal
application: the heuristic field extractor over spreadsheet grids
(`src/excel_reader.py`) and the template placeholder-substitution engine
over trees of formatted runs (`src/word_writer.py`).

Python strings are modelled as `List Char` (`Str`); Python's ASCII-relevant
`str.lower` as `Char.toLower` on each character; `a in b` as `containsL b a`;
`str.replace` (all non-overlapping occurrences, left to right) as
`pyReplace`.  Spreadsheet cell values are `Value` (text or number, numbers
as exact rationals); a worksheet is its finite list of populated cells,
from which openpyxl's `max_row`/`max_column` (at least 1, bounding every
populated cell) are computed.  openpyxl raises on a cell access with
row or column below 1; `extract_cell_value` catches every exception and
returns `none`, which the embedding folds into a bounds test.
-/

abbrev Str := List Char

/-- Python `s.lower()` restricted to its ASCII action, which covers every
comparison the source performs. -/
def lowerL (s : Str) : Str := s.map Char.toLower

/-- Python `pat in s`: substring containment. -/
def containsL : Str → Str → Bool
  | [], pat => pat.isEmpty
  | s@(_ :: t), pat => pat.isPrefixOf s || containsL t pat

/-- The worker of `pyReplace`, structurally recursive on a fuel that
bounds the number of characters still to be consumed (each step consumes
at least one, so `s.length` fuel always suffices). -/
def pyReplaceF (old rep : Str) : Nat → Str → Str
  | _, [] => []
  | 0, s => s
  | fuel + 1, c :: t =>
    if old ≠ [] ∧ old.isPrefixOf (c :: t) then
      rep ++ pyReplaceF old rep fuel ((c :: t).drop old.length)
    else
      c :: pyReplaceF old rep fuel t

/-- Python `s.replace(old, rep)` for a non-empty `old`: every
non-overlapping occurrence, scanning left to right.  (The source never
replaces an empty pattern; for `old = []` this returns `s` unchanged.) -/
def pyReplace (old rep : Str) (s : Str) : Str :=
  pyReplaceF old rep s.length s

/-- A spreadsheet cell value: text or a number (exact rational). -/
inductive Value where
  | vstr (t : Str)
  | vnum (q : ℚ)
deriving DecidableEq

/-- One worksheet: its populated cells, keyed by 1-based (row, column). -/
structure Sheet where
  cells : List ((Nat × Nat) × Value)
deriving DecidableEq

/-- The value of cell (r, c), `none` when the cell is not populated. -/
def Sheet.val (s : Sheet) (r c : Nat) : Option Value :=
  (s.cells.find? (fun p => p.1.1 == r && p.1.2 == c)).map (·.2)

/-- openpyxl `max_row`: at least 1, and bounds every populated row. -/
def Sheet.maxRow (s : Sheet) : Nat :=
  s.cells.foldl (fun a p => max a p.1.1) 1

/-- openpyxl `max_column`: at least 1, and bounds every populated column. -/
def Sheet.maxCol (s : Sheet) : Nat :=
  s.cells.foldl (fun a p => max a p.1.2) 1

/-- `ExcelReader`'s state: the loaded workbook (sheet name to sheet, in
workbook order) and the currently selected sheet. -/
structure Reader where
  sheets : List (String × Sheet)
  current : Option Sheet
deriving DecidableEq

/-- `ExcelReader.get_sheet_names`. -/
def get_sheet_names (r : Reader) : List String :=
  r.sheets.map (·.1)

/-- `ExcelReader.select_sheet`: activates a sheet when the name is known,
otherwise returns `False` and changes nothing. -/
def select_sheet (r : Reader) (name : String) : Reader × Bool :=
  if (get_sheet_names r).contains name then
    ({ r with current := (r.sheets.find? (fun p => p.1 == name)).map (·.2) }, true)
  else
    (r, false)

/-- `ExcelReader.extract_cell_value`: `None` without a selected sheet;
openpyxl raises for row or column below 1 and the `except` turns that into
`None`; otherwise the cell's value (`None` when unpopulated). -/
def extract_cell_value (cur : Option Sheet) (row col : Int) : Option Value :=
  match cur with
  | none => none
  | some s =>
    if row < 1 ∨ col < 1 then none
    else s.val row.toNat col.toNat

/-- The match test of `ExcelReader.find_cell_by_value` on one cell value:
the cell must be truthy and a string; `pm` selects case-insensitive
substring containment over case-insensitive equality. -/
def cellMatch (v : Option Value) (search : Str) (pm : Bool) : Bool :=
  match v with
  | some (.vstr t) =>
    !t.isEmpty &&
      (if pm then containsL (lowerL t) (lowerL search)
       else lowerL search == lowerL t)
  | _ => false

/-- Rows 1..maxRow, within each row columns 1..maxCol: the scan order of
`find_cell_by_value`. -/
def rowMajorCells (s : Sheet) : List (Nat × Nat) :=
  (List.range' 1 s.maxRow).flatMap
    (fun r => (List.range' 1 s.maxCol).map (fun c => (r, c)))

/-- `ExcelReader.find_cell_by_value` on the selected sheet: the first cell
in row-major order whose value passes `cellMatch`. -/
def find_cell_by_value (s : Sheet) (search : Str) (pm : Bool) : Option (Nat × Nat) :=
  (rowMajorCells s).find? (fun rc => cellMatch (s.val rc.1 rc.2) search pm)

/-- A value of the extracted-data dict: Python `None`, a string, a number,
or a list of strings. -/
inductive PyVal where
  | pnone
  | pstr (t : Str)
  | pnum (q : ℚ)
  | plist (xs : List Str)
deriving DecidableEq

/-- A cell read (`Option Value`) stored into the data dict. -/
def toPyVal : Option Value → PyVal
  | none => .pnone
  | some (.vstr t) => .pstr t
  | some (.vnum q) => .pnum q

/-- Python truthiness of a data value. -/
def truthyPy : PyVal → Bool
  | .pnone => false
  | .pstr t => !t.isEmpty
  | .pnum q => q != 0
  | .plist xs => !xs.isEmpty

/-- The data dict built by `extract_data_for_proposal`, with the defaults
the source assigns before the heuristics run (`''` everywhere, `None` for
`custo`). -/
structure ProposalData where
  nome_cliente : PyVal := .pstr []
  nome_contato : PyVal := .pstr []
  email : PyVal := .pstr []
  telefone : PyVal := .pstr []
  escopo : PyVal := .pstr []
  prazo : PyVal := .pstr []
  custo : PyVal := .pnone
  garantias : PyVal := .pstr []
  seguro : PyVal := .pstr []
  nao_inclusos : PyVal := .pstr []
deriving DecidableEq

/-- One pass of a Python `for` loop that assigns `acc := v` whenever the
body finds `some v` in the current iteration and otherwise keeps `acc`:
both field-scan loops of `extract_data_for_proposal` have this shape
(their `break` only leaves the inner column loop, so a later row
overwrites an earlier one's assignment). -/
def overwriteScan (f : α → Option PyVal) (acc : PyVal) (l : List α) : PyVal :=
  l.foldl (fun a i => match f i with | some v => v | none => a) acc

/-- The client-name test: the cell is truthy, a string, and longer than 3
characters. -/
def nomeCond (v : Option Value) : Bool :=
  match v with
  | some (.vstr t) => !t.isEmpty && decide (t.length > 3)
  | _ => false

/-- One row of the client-name loop: the first column 1..9 whose cell
passes `nomeCond`, read through `extract_cell_value`. -/
def rowFindNome (s : Sheet) (r : Nat) : Option PyVal :=
  ((List.range' 1 9).find? (fun c => nomeCond (extract_cell_value (some s) r c))).map
    (fun c => toPyVal (extract_cell_value (some s) r c))

/-- The cost-label test on column B of a row: truthy string containing
`"CUSTO FINAL"` (case-sensitively). -/
def custoLabelOk (v : Option Value) : Bool :=
  match v with
  | some (.vstr t) => !t.isEmpty && containsL t ("CUSTO FINAL".toList)
  | _ => false

/-- The cost-value test: truthy number greater than 1000. -/
def custoValOk (v : Option Value) : Bool :=
  match v with
  | some (.vnum q) => (q != 0) && decide (q > 1000)
  | _ => false

/-- One row of the cost loop: when column B holds a matching label, the
first column 1..max_column whose cell passes `custoValOk`. -/
def rowFindCusto (s : Sheet) (r : Int) : Option PyVal :=
  if custoLabelOk (extract_cell_value (some s) r 2) then
    ((List.range' 1 s.maxCol).find?
        (fun c => custoValOk (extract_cell_value (some s) r c))).map
      (fun c => toPyVal (extract_cell_value (some s) r c))
  else none

/-- Python `range(max_row - 20, max_row + 1)` over ints (the lower end can
be negative on a short sheet). -/
def custoRows (s : Sheet) : List Int :=
  (List.range' 0 21).map (fun k => (s.maxRow : Int) - 20 + k)

/-- `ExcelReader.extract_data_for_proposal` on the selected sheet: the
defaults, then the client-name scan over rows 1..9 and columns 1..9, the
cost scan over the last 21 rows, and the insurance lookup, which stores
the value of the found label cell itself. -/
def extractData (s : Sheet) : ProposalData :=
  { nome_cliente := overwriteScan (rowFindNome s) (.pstr []) (List.range' 1 9)
    custo := overwriteScan (rowFindCusto s) .pnone (custoRows s)
    seguro :=
      match find_cell_by_value s ("SEGURO".toList) true with
      | some rc => toPyVal (extract_cell_value (some s) rc.1 rc.2)
      | none => .pstr [] }

/-- `extract_data_for_proposal` including the no-sheet guard (the source
returns the empty dict `{}` there, modelled as `none`). -/
def extract_data_for_proposal_opt (cur : Option Sheet) : Option ProposalData :=
  match cur with
  | none => none
  | some s => some (extractData s)

/-!
The Word side (`src/word_writer.py`).  A paragraph is its ordered runs
(text plus an abstract character style, `none` for the default) together
with its paragraph style name; python-docx's `paragraph.text` getter joins
the run texts, and its setter drops every run and adds a single
default-styled run holding the new text.  A document holds its flat body
paragraphs and its tables (rows of cells of paragraphs); the source always
walks these two collections separately.
-/

structure Run where
  text : Str
  rstyle : Option Nat
deriving DecidableEq

structure Para where
  runs : List Run
  pstyle : String
deriving DecidableEq

/-- python-docx `paragraph.text`: the concatenated run texts. -/
def Para.textL (p : Para) : Str :=
  (p.runs.map Run.text).flatten

/-- python-docx's `paragraph.text` setter: all runs are removed and one
default-styled run with the new text is added. -/
def setParaText (p : Para) (t : Str) : Para :=
  { p with runs := [⟨t, none⟩] }

structure TCell where
  paras : List Para
deriving DecidableEq

structure TRow where
  cells : List TCell
deriving DecidableEq

structure Table where
  rows : List TRow
deriving DecidableEq

structure Doc where
  paras : List Para
  tables : List Table
deriving DecidableEq

/-- Applies `g` to every paragraph of the document, body and table cells
alike. -/
def Doc.mapParas (g : Para → Para) (d : Doc) : Doc :=
  { paras := d.paras.map g
    tables := d.tables.map (fun tb =>
      ⟨tb.rows.map (fun rw => ⟨rw.cells.map (fun cl => ⟨cl.paras.map g⟩)⟩)⟩) }

/-- Counts the paragraphs satisfying `q`, body and table cells alike. -/
def Doc.countParas (q : Para → Bool) (d : Doc) : Nat :=
  d.paras.countP q +
    (d.tables.map (fun tb =>
      (tb.rows.map (fun rw =>
        (rw.cells.map (fun cl => cl.paras.countP q)).sum)).sum)).sum

/-- Every paragraph of the document in the order the source visits them:
the flat body first, then each table's rows, each row's cells. -/
def Doc.allParas (d : Doc) : List Para :=
  d.paras ++ d.tables.flatMap (fun tb =>
    tb.rows.flatMap (fun rw => rw.cells.flatMap (fun cl => cl.paras)))

/-- The index search of `WordWriter.find_paragraph_by_text`: the position
of the first list element satisfying `q` (Python `enumerate`). -/
def findIdxL (q : α → Bool) : List α → Option Nat
  | [] => none
  | a :: l => if q a then some 0 else (findIdxL q l).map (· + 1)

/-- The paragraph-level match test of the replacement routines: `pm`
selects case-insensitive substring containment of `old` in the paragraph
text over case-insensitive whole-text equality. -/
def paraMatches (old : Str) (pm : Bool) (p : Para) : Bool :=
  if pm then containsL (lowerL p.textL) (lowerL old)
  else lowerL old == lowerL p.textL

/-- `WordWriter.find_paragraph_by_text`: scans only the flat body
paragraphs. -/
def find_paragraph_by_text (d : Doc) (search : Str) (pm : Bool) : Option Nat :=
  findIdxL (paraMatches search pm) d.paras

/-- The runs after `replace_text_in_paragraph` rewrites a paragraph: every
run's text is first cleared and the first run then receives the whole new
text (keeping its style); a paragraph without runs goes through the
`paragraph.text` setter, which adds one default run. -/
def replaceRunsKeep (rs : List Run) (t : Str) : List Run :=
  match rs with
  | [] => [⟨t, none⟩]
  | r0 :: rest => ⟨t, r0.rstyle⟩ :: rest.map (fun r => ⟨[], r.rstyle⟩)

/-- `WordWriter.replace_text_in_paragraph`: bounds-checked (Python ints,
so a negative index fails the check), preserving the first run's style and
emptying, never removing, the trailing runs. -/
def replace_text_in_paragraph (d : Doc) (i : Int) (t : Str) : Doc × Bool :=
  if 0 ≤ i ∧ i < (d.paras.length : Int) then
    match d.paras[i.toNat]? with
    | some p =>
      ({ d with paras := d.paras.set i.toNat { p with runs := replaceRunsKeep p.runs t } },
        true)
    | none => (d, false)
  else (d, false)

/-- What `replace_text_in_document` does to one paragraph: on a match the
paragraph is rewritten through the `paragraph.text` setter — with
`str.replace` (case-sensitive!) under partial matching, with the new text
as a whole otherwise. -/
def replacePara (old new : Str) (pm : Bool) (p : Para) : Para :=
  if paraMatches old pm p then
    setParaText p (if pm then pyReplace old new p.textL else new)
  else p

/-- `WordWriter.replace_text_in_document`: every body paragraph and every
paragraph of every table cell is tested and rewritten independently; the
returned count is the number of paragraphs that passed the match test. -/
def replace_text_in_document (d : Doc) (old new : Str) (pm : Bool) : Doc × Nat :=
  (d.mapParas (replacePara old new pm), d.countParas (paraMatches old pm))

/-- `WordWriter.find_and_replace_placeholder`. -/
def find_and_replace_placeholder (d : Doc) (ph new : Str) : Doc × Nat :=
  replace_text_in_document d ph new true

/-- The fields of the proposal data, in the iteration order of the
`placeholders` dict of `fill_proposal_with_data`. -/
inductive FieldName where
  | nome_cliente | nome_contato | email | telefone | escopo
  | prazo | custo | garantias | seguro | nao_inclusos
deriving DecidableEq

def fieldVal (data : ProposalData) : FieldName → PyVal
  | .nome_cliente => data.nome_cliente
  | .nome_contato => data.nome_contato
  | .email => data.email
  | .telefone => data.telefone
  | .escopo => data.escopo
  | .prazo => data.prazo
  | .custo => data.custo
  | .garantias => data.garantias
  | .seguro => data.seguro
  | .nao_inclusos => data.nao_inclusos

/-- The `placeholders` dict: field to accepted marker spellings, in source
order. -/
def placeholderTable : List (FieldName × List Str) :=
  [ (.nome_cliente, ["\x7b\x7bCLIENTE\x7d\x7d".toList, "\x7b\x7bNOME_CLIENTE\x7d\x7d".toList])
  , (.nome_contato, ["\x7b\x7bCONTATO\x7d\x7d".toList, "\x7b\x7bNOME_CONTATO\x7d\x7d".toList])
  , (.email, ["\x7b\x7bEMAIL\x7d\x7d".toList, "\x7b\x7bE-MAIL\x7d\x7d".toList])
  , (.telefone, ["\x7b\x7bTELEFONE\x7d\x7d".toList, "\x7b\x7bTEL\x7d\x7d".toList])
  , (.escopo, ["\x7b\x7bESCOPO\x7d\x7d".toList])
  , (.prazo, ["\x7b\x7bPRAZO\x7d\x7d".toList])
  , (.custo, ["\x7b\x7bCUSTO\x7d\x7d".toList, "\x7b\x7bVALOR\x7d\x7d".toList, "\x7b\x7bPREÇO\x7d\x7d".toList])
  , (.garantias, ["\x7b\x7bGARANTIAS\x7d\x7d".toList])
  , (.seguro, ["\x7b\x7bSEGURO\x7d\x7d".toList])
  , (.nao_inclusos, ["\x7b\x7bNAO_INCLUSOS\x7d\x7d".toList, "\x7b\x7bNÃO_INCLUSOS\x7d\x7d".toList]) ]

/-- The spellings the table assigns to a field. -/
def fieldSpellings (f : FieldName) : List Str :=
  match placeholderTable.find? (fun fp => fp.1 == f) with
  | some fp => fp.2
  | none => []

/-- The decimal digit characters used by Python's number formatting. -/
def digitChar : Nat → Char
  | 0 => '0' | 1 => '1' | 2 => '2' | 3 => '3' | 4 => '4'
  | 5 => '5' | 6 => '6' | 7 => '7' | 8 => '8' | _ => '9'

/-- The worker of `natDigitsRev`, structurally recursive on a fuel that
bounds the number of digits (`n` itself always suffices). -/
def natDigitsF : Nat → Nat → List Char
  | 0, n => [digitChar (n % 10)]
  | fuel + 1, n =>
    if n < 10 then [digitChar n]
    else digitChar (n % 10) :: natDigitsF fuel (n / 10)

/-- The decimal digits of `n`, least significant first. -/
def natDigitsRev (n : Nat) : List Char :=
  natDigitsF n n

/-- Thousands grouping on a least-significant-first digit list: a comma
after every third digit. -/
def commaRev : List Char → List Char
  | [] => []
  | [a] => [a]
  | [a, b] => [a, b]
  | [a, b, c] => [a, b, c]
  | a :: b :: c :: d :: rest => a :: b :: c :: ',' :: commaRev (d :: rest)

/-- Python `f"{v:,.2f}"` on an exact decimal value: two decimal places,
comma as thousands separator, dot as decimal separator, leading minus on
negative values.  (Python rounds the IEEE double; on values exactly
representable with two decimals — all the source's monetary data — the
results agree, with `round` standing in for the tie behaviour.) -/
def fmtUS (q : ℚ) : Str :=
  let cents : Int := round (q * 100)
  let n : Nat := cents.natAbs
  (if cents < 0 then ['-'] else []) ++
    (commaRev (natDigitsRev (n / 100))).reverse ++
    '.' :: [digitChar (n / 10 % 10), digitChar (n % 10)]

/-- The monetary formatting of `fill_proposal_with_data`:
`f"R$ {value:,.2f}".replace(',', 'X').replace('.', ',').replace('X', '.')`. -/
def moneyFmt (q : ℚ) : Str :=
  pyReplace ['X'] ['.']
    (pyReplace ['.'] [',']
      (pyReplace [','] ['X'] (("R$ ".toList) ++ fmtUS q)))

/-- Python `str(value)` for the value kinds the data dict can hold.  After
the formatting steps a substituted value is always a string; the number
and list renderings below model `str` on the remaining kinds, which no
truthy field reaches in the source's flow. -/
def pyStr : PyVal → Str
  | .pstr t => t
  | .pnum q => fmtUS q
  | .plist _ => []
  | .pnone => "None".toList

/-- The bullet rendering of a list value:
`"\n• " + "\n• ".join(value)`. -/
def bulletJoin (xs : List Str) : Str :=
  ("\n• ".toList) ++ (xs.intersperse ("\n• ".toList)).flatten

/-- The per-field value formatting of `fill_proposal_with_data`: monetary
formatting for a numeric `custo`, bullet rendering for lists, then
`str(value)`. -/
def formatFieldValue (f : FieldName) (v : PyVal) : Str :=
  let v1 := if f = .custo then
      match v with
      | .pnum q => PyVal.pstr (moneyFmt q)
      | w => w
    else v
  let v2 := match v1 with
    | .plist xs => PyVal.pstr (bulletJoin xs)
    | w => w
  pyStr v2

/-- The substitutions `fill_proposal_with_data` performs, in order: for
each truthy field, one partial-match replacement per accepted spelling. -/
def fillOps (data : ProposalData) : List (Str × Str) :=
  placeholderTable.flatMap (fun fp =>
    if truthyPy (fieldVal data fp.1) then
      fp.2.map (fun ph => (ph, formatFieldValue fp.1 (fieldVal data fp.1)))
    else [])

/-- `WordWriter.fill_proposal_with_data`: the substitutions applied to the
document in order.  The source returns `False` only when an exception
escapes, which the modelled operations never raise. -/
def fill_proposal_with_data (d : Doc) (data : ProposalData) : Doc × Bool :=
  ((fillOps data).foldl
    (fun dd op => (replace_text_in_document dd op.1 op.2 true).1) d, true)

/-- What `fill_proposal_with_data` does to each single paragraph. -/
def fillPara (data : ProposalData) (p : Para) : Para :=
  (fillOps data).foldl (fun q op => replacePara op.1 op.2 true q) p

/-- A paragraph as python-docx `add_paragraph(text, style='Normal')`
creates it. -/
def mkNormalPara (content : String) : Para :=
  ⟨[⟨content.toList, none⟩], "Normal"⟩

/-- A paragraph as python-docx `add_heading(title, level=2)` creates it. -/
def mkHeadingPara (title : String) : Para :=
  ⟨[⟨title.toList, none⟩], "Heading 2"⟩

/-- `WordWriter.add_section_if_not_exists`: when a body paragraph already
contains the title, only the content paragraph is appended (python-docx
appends at the document end); otherwise a heading and the content are
appended.  Returns `True` either way. -/
def add_section_if_not_exists (d : Doc) (title content : String) : Doc × Bool :=
  match find_paragraph_by_text d (title.toList) true with
  | some _ => ({ d with paras := d.paras ++ [mkNormalPara content] }, true)
  | none =>
    ({ d with paras := d.paras ++ [mkHeadingPara title, mkNormalPara content] }, true)

/-- The paragraphs styled as the level-2 heading `add_heading` produces. -/
def countHeadings (d : Doc) : Nat :=
  d.paras.countP (fun p => p.pstyle == "Heading 2")

/-! Helper lemmas. -/

theorem isPrefixOf_self : ∀ (l : Str), l.isPrefixOf l = true
  | [] => rfl
  | a :: t => by simp [List.isPrefixOf, isPrefixOf_self t]

theorem containsL_refl (s : Str) : containsL s s = true := by
  cases s with
  | nil => rfl
  | cons c t => simp [containsL, isPrefixOf_self]

theorem le_foldl_max (g : α → Nat) (l : List α) (a : Nat) :
    a ≤ l.foldl (fun x p => max x (g p)) a := by
  induction l generalizing a with
  | nil => exact le_refl a
  | cons p t ih => exact le_trans (le_max_left a (g p)) (ih (max a (g p)))

theorem mem_le_foldl_max (g : α → Nat) (l : List α) (a : Nat) :
    ∀ p ∈ l, g p ≤ l.foldl (fun x q => max x (g q)) a := by
  induction l generalizing a with
  | nil => intro p hp; exact absurd hp (List.not_mem_nil p)
  | cons x t ih =>
    intro p hp
    rcases List.mem_cons.mp hp with h | h
    · subst h
      exact le_trans (le_max_right a (g p)) (le_foldl_max g t (max a (g p)))
    · exact ih (max a (g x)) p h

theorem row_le_maxRow (s : Sheet) : ∀ p ∈ s.cells, p.1.1 ≤ s.maxRow :=
  mem_le_foldl_max (fun p => p.1.1) s.cells 1

theorem col_le_maxCol (s : Sheet) : ∀ p ∈ s.cells, p.1.2 ≤ s.maxCol :=
  mem_le_foldl_max (fun p => p.1.2) s.cells 1

theorem val_eq_none_of_beyond (s : Sheet) (r c : Nat)
    (h : s.maxRow < r ∨ s.maxCol < c) : s.val r c = none := by
  have hnone : s.cells.find? (fun p => p.1.1 == r && p.1.2 == c) = none := by
    apply List.find?_eq_none.mpr
    intro p hp hbeq
    have hsplit := (Bool.and_eq_true _ _).mp hbeq
    have h1 : p.1.1 = r := eq_of_beq hsplit.1
    have h2 : p.1.2 = c := eq_of_beq hsplit.2
    rcases h with hr | hc
    · exact absurd (h1 ▸ row_le_maxRow s p hp) (Nat.not_le.mpr hr)
    · exact absurd (h2 ▸ col_le_maxCol s p hp) (Nat.not_le.mpr hc)
  simp [Sheet.val, hnone]

theorem overwriteScan_all_none (f : α → Option PyVal) (acc : PyVal) (l : List α)
    (h : ∀ i ∈ l, f i = none) : overwriteScan f acc l = acc := by
  induction l generalizing acc with
  | nil => rfl
  | cons x t ih =>
    have hx : f x = none := h x (List.mem_cons_self x t)
    simp only [overwriteScan, List.foldl_cons, hx]
    exact ih acc (fun i hi => h i (List.mem_cons_of_mem x hi))

theorem overwriteScan_append (f : α → Option PyVal) (acc : PyVal) (l₁ l₂ : List α) :
    overwriteScan f acc (l₁ ++ l₂) = overwriteScan f (overwriteScan f acc l₁) l₂ :=
  List.foldl_append _ _ l₁ l₂

theorem mem_rowMajorCells (s : Sheet) (rc : Nat × Nat) (h : rc ∈ rowMajorCells s) :
    1 ≤ rc.1 ∧ rc.1 ≤ s.maxRow ∧ 1 ≤ rc.2 ∧ rc.2 ≤ s.maxCol := by
  rcases List.mem_flatMap.mp h with ⟨r, hr, hc⟩
  rcases List.mem_map.mp hc with ⟨c, hcm, hrc⟩
  have hr' := List.mem_range'_1.mp hr
  have hc' := List.mem_range'_1.mp hcm
  subst hrc
  exact ⟨hr'.1, by omega, hc'.1, by omega⟩

theorem countP_flatMap (q : α → Bool) (f : β → List α) (l : List β) :
    (l.flatMap f).countP q = (l.map (fun b => (f b).countP q)).sum := by
  induction l with
  | nil => rfl
  | cons x t ih => simp [List.flatMap_cons, List.countP_append, ih]

theorem countParas_eq_countP (q : Para → Bool) (d : Doc) :
    d.countParas q = d.allParas.countP q := by
  simp [Doc.countParas, Doc.allParas, List.countP_append, countP_flatMap,
    List.map_map, Function.comp]

theorem allParas_mapParas (g : Para → Para) (d : Doc) :
    (d.mapParas g).allParas = d.allParas.map g := by
  simp [Doc.mapParas, Doc.allParas, List.map_flatMap, List.flatMap_map]

theorem mapParas_id (d : Doc) : d.mapParas (fun p => p) = d := by
  cases d with
  | mk ps ts => simp [Doc.mapParas, List.map_id']

theorem mapParas_comp (g₁ g₂ : Para → Para) (d : Doc) :
    (d.mapParas g₁).mapParas g₂ = d.mapParas (fun p => g₂ (g₁ p)) := by
  cases d with
  | mk ps ts => simp [Doc.mapParas, List.map_map, Function.comp]

theorem fill_eq_mapParas (ops : List (Str × Str)) (d : Doc) :
    ops.foldl (fun dd op => (replace_text_in_document dd op.1 op.2 true).1) d =
      d.mapParas (fun p => ops.foldl (fun q op => replacePara op.1 op.2 true q) p) := by
  induction ops generalizing d with
  | nil => exact (mapParas_id d).symm
  | cons op ops ih =>
    simp only [List.foldl_cons]
    rw [ih, replace_text_in_document, mapParas_comp]

theorem replacePara_no_match (old new : Str) (pm : Bool) (p : Para)
    (h : paraMatches old pm p = false) : replacePara old new pm p = p := by
  simp [replacePara, h]

theorem foldl_replacePara_id (ops : List (Str × Str)) (p : Para)
    (h : ∀ op ∈ ops, paraMatches op.1 true p = false) :
    ops.foldl (fun q op => replacePara op.1 op.2 true q) p = p := by
  induction ops with
  | nil => rfl
  | cons op ops ih =>
    simp only [List.foldl_cons,
      replacePara_no_match op.1 op.2 true p (h op (List.mem_cons_self op ops))]
    exact ih (fun o ho => h o (List.mem_cons_of_mem op ho))

theorem findIdxL_eq_none_iff (q : α → Bool) (l : List α) :
    findIdxL q l = none ↔ ∀ a ∈ l, q a = false := by
  induction l with
  | nil => simp [findIdxL]
  | cons x t ih =>
    simp only [findIdxL, List.forall_mem_cons]
    by_cases hx : q x
    · simp [hx]
    · rw [Bool.not_eq_true] at hx
      simp [hx, Option.map_eq_none', ih]

theorem findIdxL_append_some (q : α → Bool) (l₁ l₂ : List α) (i : Nat)
    (h : findIdxL q l₁ = some i) : findIdxL q (l₁ ++ l₂) = some i := by
  induction l₁ generalizing i with
  | nil => simp [findIdxL] at h
  | cons x t ih =>
    rw [List.cons_append]
    simp only [findIdxL] at h ⊢
    by_cases hx : q x
    · simpa [hx] using h
    · rw [if_neg hx] at h ⊢
      rcases Option.map_eq_some'.mp h with ⟨j, hj, hji⟩
      rw [ih j hj, Option.map_some', hji]

/-- The character action of the separator swap the money formatting
performs: commas and dots exchange, everything else stays. -/
def swapSep (c : Char) : Char :=
  if c = ',' then '.' else if c = '.' then ',' else c

theorem pyReplaceF_single (a : Char) (r : Str) :
    ∀ (fuel : Nat) (s : Str), s.length ≤ fuel →
      pyReplaceF [a] r fuel s = s.flatMap (fun c => if c = a then r else [c]) := by
  intro fuel
  induction fuel with
  | zero =>
    intro s hs
    have : s = [] := List.eq_nil_of_length_eq_zero (Nat.le_zero.mp hs)
    subst this
    rfl
  | succ fuel ih =>
    intro s hs
    cases s with
    | nil => rfl
    | cons c t =>
      simp only [pyReplaceF, List.flatMap_cons]
      have hpre : ([a].isPrefixOf (c :: t)) = (a == c) := by
        simp [List.isPrefixOf]
      by_cases hac : c = a
      · subst hac
        rw [if_pos ⟨by simp, by simp [hpre]⟩]
        simp only [List.length_cons] at hs
        simp [ih t (by omega)]
      · rw [if_neg ?_]
        · simp only [List.length_cons] at hs
          simp [ih t (by omega), hac]
        · intro hand
          rw [hpre] at hand
          exact hac (eq_of_beq hand.2).symm

theorem pyReplace_single (a : Char) (r s : Str) :
    pyReplace [a] r s = s.flatMap (fun c => if c = a then r else [c]) :=
  pyReplaceF_single a r s.length s (le_refl _)

theorem flatMap_ite_singleton (a : Char) (r : Char) (s : Str) :
    s.flatMap (fun c => if c = a then [r] else [c]) =
      s.map (fun c => if c = a then r else c) := by
  induction s with
  | nil => rfl
  | cons c t ih =>
    by_cases hc : c = a <;> simp [hc, ih]

theorem money_swap (s : Str) (h : ∀ c ∈ s, c ≠ 'X') :
    pyReplace ['X'] ['.'] (pyReplace ['.'] [','] (pyReplace [','] ['X'] s)) =
      s.map swapSep := by
  rw [pyReplace_single, pyReplace_single, pyReplace_single,
    flatMap_ite_singleton, flatMap_ite_singleton, flatMap_ite_singleton,
    List.map_map, List.map_map]
  apply List.map_congr_left
  intro c hc
  have hcx : c ≠ 'X' := h c hc
  by_cases h1 : c = ','
  · simp [h1, swapSep, Function.comp]
  · by_cases h2 : c = '.'
    · simp [h2, swapSep, Function.comp]
    · simp [h1, h2, hcx, swapSep, Function.comp]

theorem digitChar_ne_X (d : Nat) : digitChar d ≠ 'X' := by
  simp only [digitChar]
  split <;> decide

theorem natDigitsF_digits (fuel n : Nat) :
    ∀ c ∈ natDigitsF fuel n, ∃ d, c = digitChar d := by
  induction fuel generalizing n with
  | zero =>
    intro c hc
    simp only [natDigitsF, List.mem_singleton] at hc
    exact ⟨n % 10, hc⟩
  | succ fuel ih =>
    intro c hc
    simp only [natDigitsF] at hc
    by_cases hn : n < 10
    · rw [if_pos hn] at hc
      exact ⟨n, List.mem_singleton.mp hc⟩
    · rw [if_neg hn] at hc
      rcases List.mem_cons.mp hc with h | h
      · exact ⟨n % 10, h⟩
      · exact ih (n / 10) c h

theorem commaRev_subset : ∀ (l : List Char), ∀ c ∈ commaRev l, c ∈ l ∨ c = ','
  | [] => by simp [commaRev]
  | [a] => by simp [commaRev]
  | [a, b] => by simp [commaRev]
  | [a, b, c] => by simp [commaRev]
  | a :: b :: c :: d :: rest => by
    intro x hx
    simp only [commaRev, List.mem_cons] at hx
    rcases hx with h | h | h | h | h
    · exact Or.inl (by simp [h])
    · exact Or.inl (by simp [h])
    · exact Or.inl (by simp [h])
    · exact Or.inr h
    · rcases commaRev_subset (d :: rest) x h with h' | h'
      · exact Or.inl (by simp only [List.mem_cons] at h' ⊢; tauto)
      · exact Or.inr h'

theorem fmtUS_no_X (q : ℚ) : ∀ c ∈ fmtUS q, c ≠ 'X' := by
  intro c hc
  simp only [fmtUS] at hc
  rcases List.mem_append.mp hc with h12 | h3
  · rcases List.mem_append.mp h12 with h1 | h2
    · split at h1
      · rcases List.mem_singleton.mp h1 with rfl; decide
      · exact absurd h1 (List.not_mem_nil c)
    · rcases commaRev_subset _ c (List.mem_reverse.mp h2) with h' | h'
      · rcases natDigitsF_digits _ _ c h' with ⟨d, rfl⟩
        exact digitChar_ne_X d
      · subst h'; decide
  · rcases List.mem_cons.mp h3 with h4 | h4
    · subst h4; decide
    · rcases List.mem_cons.mp h4 with h5 | h5
      · subst h5; exact digitChar_ne_X _
      · rcases List.mem_singleton.mp h5 with rfl
        exact digitChar_ne_X _

theorem overwriteScan_cons (f : α → Option PyVal) (acc : PyVal) (x : α) (l : List α) :
    overwriteScan f acc (x :: l) =
      overwriteScan f (match f x with | some v => v | none => acc) l := rfl

/-- The spec's end-to-end example grid: client name in the search window,
label `"SEGURO"` at (40, 2), its adjacent value at (40, 3). -/
def sheetA : Sheet :=
  ⟨[((2, 3), .vstr ("Acme Corp".toList)),
    ((40, 2), .vstr ("SEGURO".toList)),
    ((40, 3), .vstr ("Incluído".toList))]⟩

/-- A grid with name-like cells in two rows of the client-name window. -/
def sheetB : Sheet :=
  ⟨[((1, 1), .vstr ("AAAA".toList)), ((2, 1), .vstr ("BBBB".toList))]⟩

/-- C1 counterexample: on the spec's own example grid the code stores the
label cell's value `"SEGURO"` into the `seguro` field, not the adjacent
cell's `"Incluído"`. -/
theorem claim_C1_counterexample :
    sheetA.val 40 2 = some (.vstr ("SEGURO".toList)) ∧
    sheetA.val 40 3 = some (.vstr ("Incluído".toList)) ∧
    (extractData sheetA).seguro = .pstr ("SEGURO".toList) ∧
    (extractData sheetA).seguro ≠ .pstr ("Incluído".toList) := by
  decide

/-- C1 (amended): whenever the label search finds a cell whose string
value contains `"SEGURO"` case-insensitively, `extract` stores that label
cell's own value into the `seguro` field. -/
theorem claim_C1_theorem (s : Sheet) (r c : Nat)
    (h : find_cell_by_value s ("SEGURO".toList) true = some (r, c)) :
    ∃ t : Str, s.val r c = some (.vstr t) ∧
      containsL (lowerL t) ("seguro".toList) = true ∧
      (extractData s).seguro = .pstr t := by
  have hps := List.find?_some h
  have hmem := mem_rowMajorCells s (r, c) (List.mem_of_find?_eq_some h)
  cases hv : s.val r c with
  | none => rw [hv] at hps; exact absurd hps (by simp [cellMatch])
  | some v =>
    cases v with
    | vnum q => rw [hv] at hps; exact absurd hps (by simp [cellMatch])
    | vstr t =>
      rw [hv] at hps
      simp only [cellMatch, if_pos, Bool.and_eq_true] at hps
      refine ⟨t, rfl, ?_, ?_⟩
      · have hlow : lowerL ("SEGURO".toList) = "seguro".toList := by decide
        rw [← hlow]
        exact hps.2
      · simp only [extractData, h]
        have hr1 : ¬((r : Int) < 1 ∨ (c : Int) < 1) := by
          push_neg
          constructor <;> [exact_mod_cast hmem.1; exact_mod_cast hmem.2.2.1]
        simp only [extract_cell_value, hr1, if_neg, Int.toNat_ofNat, hv]
        rfl

/-- C1 witness: the amended statement applied to the spec's example grid,
where the label is found at (40, 2). -/
theorem claim_C1_witness :
    ∃ t : Str, sheetA.val 40 2 = some (.vstr t) ∧
      containsL (lowerL t) ("seguro".toList) = true ∧
      (extractData sheetA).seguro = .pstr t :=
  claim_C1_theorem sheetA 40 2 (by decide)

/-- C2 counterexample: the first qualifying cell in row-major order over
the window is (1, 1) = `"AAAA"`, yet `extract` returns `"BBBB"` from row
2, because the `break` leaves only the inner column loop and a later row
overwrites the assignment. -/
theorem claim_C2_counterexample :
    sheetB.val 1 1 = some (.vstr ("AAAA".toList)) ∧
    sheetB.val 2 1 = some (.vstr ("BBBB".toList)) ∧
    (extractData sheetB).nome_cliente = .pstr ("BBBB".toList) ∧
    (extractData sheetB).nome_cliente ≠ .pstr ("AAAA".toList) := by
  decide

/-- C2 (amended): the client-name field holds the value found by the
LAST row in 1..9 containing a qualifying cell — within that row the first
qualifying column wins, but any later row's match replaces an earlier
row's. -/
theorem claim_C2_theorem (s : Sheet) (r : Nat) (v : PyVal)
    (h1 : 1 ≤ r) (h2 : r ≤ 9) (h3 : rowFindNome s r = some v)
    (h4 : ∀ r' ∈ List.range' (r + 1) (9 - r), rowFindNome s r' = none) :
    (extractData s).nome_cliente = v := by
  have hsplit : List.range' 1 9 = List.range' 1 (r - 1) ++ List.range' r ((9 - r) + 1) := by
    calc List.range' 1 9
        = List.range' 1 (((9 - r) + 1) + (r - 1)) := by congr 1; omega
      _ = List.range' 1 (r - 1) ++ List.range' (1 + 1 * (r - 1)) ((9 - r) + 1) :=
          (List.range'_append 1 (r - 1) ((9 - r) + 1) 1).symm
      _ = List.range' 1 (r - 1) ++ List.range' r ((9 - r) + 1) := by
          congr 2
          omega
  have hsucc : List.range' r ((9 - r) + 1) = r :: List.range' (r + 1) (9 - r) :=
    List.range'_succ r (9 - r) 1
  simp only [extractData]
  rw [hsplit, hsucc, overwriteScan_append, overwriteScan_cons, h3]
  exact overwriteScan_all_none _ v _ h4

/-- C2 witness: on `sheetB` row 2 is the last matching row and its first
match is `"BBBB"`. -/
theorem claim_C2_witness : (extractData sheetB).nome_cliente = .pstr ("BBBB".toList) :=
  claim_C2_theorem sheetB 2 (.pstr ("BBBB".toList)) (by decide) (by decide)
    (by decide) (by decide)

/-- The row extent openpyxl reports for the current sheet (0 without a
sheet, only used under a `some`). -/
def sheetMaxRowO : Option Sheet → Int
  | none => 0
  | some s => (s.maxRow : Int)

/-- The column extent openpyxl reports for the current sheet. -/
def sheetMaxColO : Option Sheet → Int
  | none => 0
  | some s => (s.maxCol : Int)

/-- C6: a cell read with no selected sheet, a row or column below 1, or a
position beyond the sheet's extent returns empty and never raises (the
`except` path is the `none` of the model). -/
theorem claim_C6_theorem (cur : Option Sheet) (row col : Int)
    (h : cur = none ∨ row < 1 ∨ col < 1 ∨
      sheetMaxRowO cur < row ∨ sheetMaxColO cur < col) :
    extract_cell_value cur row col = none := by
  cases cur with
  | none => rfl
  | some s =>
    simp only [extract_cell_value]
    by_cases hb : row < 1 ∨ col < 1
    · rw [if_pos hb]
    · rw [if_neg hb]
      push_neg at hb
      rcases h with h | h | h | h | h
      · exact absurd h (by simp)
      · omega
      · omega
      · apply val_eq_none_of_beyond
        left
        simp only [sheetMaxRowO] at h
        omega
      · apply val_eq_none_of_beyond
        right
        simp only [sheetMaxColO] at h
        omega

/-- C6 witness: row 41 lies beyond `sheetA`'s 40 populated rows. -/
theorem claim_C6_witness : extract_cell_value (some sheetA) 41 1 = none :=
  claim_C6_theorem (some sheetA) 41 1 (by decide)

/-- C7: on a grid with zero populated cells every heuristic finds
nothing and `extract` returns the record of typed empty defaults. -/
theorem claim_C7_theorem (s : Sheet) (h : ∀ r c, s.val r c = none) :
    extractData s = {} := by
  have hecv : ∀ (row col : Int), extract_cell_value (some s) row col = none := by
    intro row col
    simp only [extract_cell_value]
    split
    · rfl
    · exact h _ _
  have hnome : ∀ r, rowFindNome s r = none := by
    intro r
    simp only [rowFindNome]
    rw [List.find?_eq_none.mpr (fun c _ => by simp [nomeCond, hecv])]
    rfl
  have hcusto : ∀ r, rowFindCusto s r = none := by
    intro r
    simp only [rowFindCusto]
    rw [if_neg (by simp [custoLabelOk, hecv])]
  have hfind : find_cell_by_value s ("SEGURO".toList) true = none :=
    List.find?_eq_none.mpr (fun rc _ => by simp [cellMatch, h])
  simp only [extractData, hfind]
  rw [overwriteScan_all_none _ _ _ (fun i _ => hnome i),
    overwriteScan_all_none _ _ _ (fun i _ => hcusto i)]

/-- C7 witness: the empty sheet. -/
theorem claim_C7_witness : extractData ⟨[]⟩ = {} :=
  claim_C7_theorem ⟨[]⟩ (fun _ _ => rfl)

/-- A loaded workbook with one sheet, for the select/extract witnesses. -/
def readerEx : Reader := ⟨[("Plan1", sheetB)], some sheetB⟩

/-- C10: selecting an unknown sheet name returns `False` and leaves the
reader untouched, so a following `extract` behaves exactly as without the
failed select. -/
theorem claim_C10_theorem (r : Reader) (name : String)
    (h : (get_sheet_names r).contains name = false) :
    select_sheet r name = (r, false) ∧
    extract_data_for_proposal_opt (select_sheet r name).1.current =
      extract_data_for_proposal_opt r.current := by
  have hnc : ¬((get_sheet_names r).contains name = true) := by
    rw [h]
    exact Bool.false_ne_true
  have hsel : select_sheet r name = (r, false) := by
    rw [select_sheet, if_neg hnc]
  exact ⟨hsel, by rw [hsel]⟩

/-- C10 witness: `"Plan2"` is not a sheet of the example workbook. -/
theorem claim_C10_witness :
    select_sheet readerEx "Plan2" = (readerEx, false) ∧
    extract_data_for_proposal_opt (select_sheet readerEx "Plan2").1.current =
      extract_data_for_proposal_opt readerEx.current :=
  claim_C10_theorem readerEx "Plan2" (by decide)

/-- A one-paragraph document whose paragraph has two styled runs, the
first holding a placeholder. -/
def dW3 : Doc :=
  ⟨[⟨[⟨"\x7b\x7bX\x7d\x7d".toList, some 5⟩, ⟨" tail".toList, some 7⟩], "Normal"⟩], []⟩

/-- C3 counterexample: `replace_text_in_document` rewrites a matched
paragraph through the `paragraph.text` setter, so its two runs collapse
into one default-styled run — the run count decreases and the first run's
style is lost, against the claim that the invariant holds for
`replaceEverywhere` as well. -/
theorem claim_C3_counterexample :
    (dW3.paras.map (fun p => p.runs.length)) = [2] ∧
    ((replace_text_in_document dW3 ("\x7b\x7bX\x7d\x7d".toList) ("Y".toList) true).1.paras.map
      (fun p => p.runs.length)) = [1] ∧
    ((replace_text_in_document dW3 ("\x7b\x7bX\x7d\x7d".toList) ("Y".toList) true).1.paras.map
      (fun p => p.runs.map Run.rstyle)) = [[none]] := by
  decide

/-- C3 (amended): the invariant does hold for `replace_text_in_paragraph`
— the first run keeps its style and receives the whole new text, every
trailing run is emptied but kept (all run styles survive and the run
count is unchanged). -/
theorem claim_C3_theorem (d : Doc) (i : Nat) (t : Str) (p : Para)
    (h1 : d.paras[i]? = some p) (h2 : p.runs ≠ []) :
    (replace_text_in_paragraph d (i : Int) t).2 = true ∧
    ((replace_text_in_paragraph d (i : Int) t).1.paras[i]?.map
      (fun q => q.runs.length)) = some p.runs.length ∧
    ((replace_text_in_paragraph d (i : Int) t).1.paras[i]?.map
      (fun q => q.runs.map Run.rstyle)) = some (p.runs.map Run.rstyle) ∧
    ((replace_text_in_paragraph d (i : Int) t).1.paras[i]?.map
      (fun q => q.runs.head?.map Run.text)) = some (some t) ∧
    ((replace_text_in_paragraph d (i : Int) t).1.paras[i]?.map
      (fun q => q.runs.tail.map Run.text)) = some (p.runs.tail.map (fun _ => ([] : Str))) := by
  rcases List.getElem?_eq_some_iff.mp h1 with ⟨hlen, _⟩
  have hcond : (0 : Int) ≤ (i : Int) ∧ (i : Int) < (d.paras.length : Int) := by
    constructor
    · exact_mod_cast Nat.zero_le i
    · exact_mod_cast hlen
  simp only [replace_text_in_paragraph, if_pos hcond, Int.toNat_ofNat, h1]
  rw [List.getElem?_set_self (by simpa using hlen)]
  cases hr : p.runs with
  | nil => exact absurd hr h2
  | cons r0 rest =>
    simp [replaceRunsKeep, List.map_map, Function.comp, List.map_const']
    exact List.map_const' rest []

/-- A one-paragraph document with two runs for the C3 witness. -/
def dW3b : Doc :=
  ⟨[⟨[⟨"old".toList, some 5⟩, ⟨" text".toList, some 7⟩], "Normal"⟩], []⟩

/-- The paragraph of `dW3b`. -/
def pW3b : Para := ⟨[⟨"old".toList, some 5⟩, ⟨" text".toList, some 7⟩], "Normal"⟩

/-- C3 witness: the amended statement at index 0 of `dW3b`. -/
theorem claim_C3_witness :
    (replace_text_in_paragraph dW3b ((0 : Nat) : Int) ("New".toList)).2 = true ∧
    ((replace_text_in_paragraph dW3b ((0 : Nat) : Int) ("New".toList)).1.paras[(0 : Nat)]?.map
      (fun q => q.runs.length)) = some pW3b.runs.length ∧
    ((replace_text_in_paragraph dW3b ((0 : Nat) : Int) ("New".toList)).1.paras[(0 : Nat)]?.map
      (fun q => q.runs.map Run.rstyle)) = some (pW3b.runs.map Run.rstyle) ∧
    ((replace_text_in_paragraph dW3b ((0 : Nat) : Int) ("New".toList)).1.paras[(0 : Nat)]?.map
      (fun q => q.runs.head?.map Run.text)) = some (some ("New".toList)) ∧
    ((replace_text_in_paragraph dW3b ((0 : Nat) : Int) ("New".toList)).1.paras[(0 : Nat)]?.map
      (fun q => q.runs.tail.map Run.text)) = some (pW3b.runs.tail.map (fun _ => ([] : Str))) :=
  claim_C3_theorem dW3b 0 ("New".toList) pW3b (by decide) (by decide)

/-- A one-paragraph document whose text matches `"A"` only
case-insensitively. -/
def dW4 : Doc := ⟨[⟨[⟨['a'], none⟩], "Normal"⟩], []⟩

/-- C4 counterexample: with `old = "A"`, `new = "B"` the paragraph `"a"`
passes the case-insensitive containment test and is counted, but
`str.replace` is case-sensitive, so the text is unchanged although old
and new differ. -/
theorem claim_C4_counterexample :
    (replace_text_in_document dW4 ['A'] ['B'] true).2 = 1 ∧
    ((replace_text_in_document dW4 ['A'] ['B'] true).1.paras.map Para.textL) = [['a']] ∧
    (['A'] : Str) ≠ ['B'] := by
  decide

/-- C4 (amended): under partial matching every body paragraph and every
table-cell paragraph is tested by case-insensitive substring containment
and rewritten by case-sensitive `str.replace`; the returned count is
exactly the number of paragraphs that passed the containment test (which
can exceed the number whose text changed). -/
theorem claim_C4_theorem (d : Doc) (old new : Str) :
    (replace_text_in_document d old new true).2 =
      d.allParas.countP (fun p => containsL (lowerL p.textL) (lowerL old)) ∧
    (replace_text_in_document d old new true).1.allParas =
      d.allParas.map (replacePara old new true) := by
  constructor
  · exact countParas_eq_countP _ d
  · exact allParas_mapParas _ d

theorem findIdxL_ne_none_of_mem (q : α → Bool) (l : List α) (a : α)
    (ha : a ∈ l) (hq : q a = true) : findIdxL q l ≠ none := by
  intro hnone
  have := (findIdxL_eq_none_iff q l).mp hnone a ha
  rw [hq] at this
  exact Bool.noConfusion this

theorem mkHeadingPara_textL (title : String) : (mkHeadingPara title).textL = title.toList := by
  simp [mkHeadingPara, Para.textL]

/-- A document whose heading is followed by another paragraph. -/
def dW5 : Doc := ⟨[mkHeadingPara "Section A", mkNormalPara "Other"], []⟩

/-- C5 counterexample: the heading is found at index 0, yet the appended
body lands at the document end (index 2), not immediately after the
heading (index 1). -/
theorem claim_C5_counterexample :
    find_paragraph_by_text dW5 ("Section A".toList) true = some 0 ∧
    ((add_section_if_not_exists dW5 "Section A" "Body").1.paras.map Para.textL) =
      ["Section A".toList, "Other".toList, "Body".toList] ∧
    ((add_section_if_not_exists dW5 "Section A" "Body").1.paras[1]?.map Para.textL) ≠
      some ("Body".toList) := by
  decide

/-- C5 (amended): `add_section_if_not_exists` returns `True` in both
cases; when a paragraph containing the title exists only the body is
appended — at the document end, not immediately after the heading —
otherwise a heading plus body is appended; and a second identical call
always takes the found branch, appending one body paragraph and creating
no second heading. -/
theorem claim_C5_theorem (d : Doc) (title content : String) :
    (add_section_if_not_exists d title content).2 = true ∧
    (add_section_if_not_exists
      (add_section_if_not_exists d title content).1 title content).2 = true ∧
    (add_section_if_not_exists d title content).1.paras =
      d.paras ++ (match find_paragraph_by_text d (title.toList) true with
        | some _ => [mkNormalPara content]
        | none => [mkHeadingPara title, mkNormalPara content]) ∧
    (add_section_if_not_exists
      (add_section_if_not_exists d title content).1 title content).1.paras =
      (add_section_if_not_exists d title content).1.paras ++ [mkNormalPara content] ∧
    countHeadings (add_section_if_not_exists
      (add_section_if_not_exists d title content).1 title content).1 =
      countHeadings (add_section_if_not_exists d title content).1 := by
  have hnormal : ∀ dd : Doc, countHeadings ⟨dd.paras ++ [mkNormalPara content], dd.tables⟩ =
      countHeadings dd := by
    intro dd
    simp [countHeadings, List.countP_append, mkNormalPara]
  cases hfind : find_paragraph_by_text d (title.toList) true with
  | some i =>
    have hfind2 : find_paragraph_by_text
        ⟨d.paras ++ [mkNormalPara content], d.tables⟩ (title.toList) true = some i :=
      findIdxL_append_some _ d.paras _ i hfind
    simp only [add_section_if_not_exists, hfind, hfind2]
    refine ⟨trivial, trivial, trivial, trivial, ?_⟩
    exact hnormal ⟨d.paras ++ [mkNormalPara content], d.tables⟩
  | none =>
    have hq : paraMatches (title.toList) true (mkHeadingPara title) = true := by
      simp only [paraMatches, if_pos, mkHeadingPara_textL]
      exact containsL_refl _
    have hmem : mkHeadingPara title ∈
        d.paras ++ [mkHeadingPara title, mkNormalPara content] := by
      simp
    have hne := findIdxL_ne_none_of_mem (paraMatches (title.toList) true)
      (d.paras ++ [mkHeadingPara title, mkNormalPara content]) _ hmem hq
    rcases Option.ne_none_iff_exists.mp hne with ⟨k, hk⟩
    have hfind2 : find_paragraph_by_text
        ⟨d.paras ++ [mkHeadingPara title, mkNormalPara content], d.tables⟩
        (title.toList) true = some k := hk.symm
    simp only [add_section_if_not_exists, hfind, hfind2]
    refine ⟨trivial, trivial, trivial, trivial, ?_⟩
    exact hnormal ⟨d.paras ++ [mkHeadingPara title, mkNormalPara content], d.tables⟩

theorem placeholderTable_spellings :
    ∀ fp ∈ placeholderTable, fieldSpellings fp.1 = fp.2 := by
  decide

/-- C8: a paragraph in which no spelling of any truthy field occurs
(case-insensitively) — in particular one holding only placeholders of
absent or empty fields — is left character-for-character unchanged by
`fill_proposal_with_data`, and filling it again changes nothing either;
the whole fill is the per-paragraph map of `fillPara` over body and table
paragraphs alike. -/
theorem claim_C8_theorem (data : ProposalData) (p : Para)
    (h : ∀ f : FieldName, truthyPy (fieldVal data f) = true →
      ∀ ph ∈ fieldSpellings f, containsL (lowerL p.textL) (lowerL ph) = false) :
    fillPara data p = p ∧
    fillPara data (fillPara data p) = fillPara data p ∧
    ∀ d : Doc, (fill_proposal_with_data d data).1.allParas =
      d.allParas.map (fillPara data) := by
  have hops : ∀ op ∈ fillOps data, paraMatches op.1 true p = false := by
    intro op hop
    rcases List.mem_flatMap.mp hop with ⟨fp, hfp, hopin⟩
    by_cases ht : truthyPy (fieldVal data fp.1) = true
    · rw [if_pos ht] at hopin
      rcases List.mem_map.mp hopin with ⟨ph, hph, hopeq⟩
      have hsp : ph ∈ fieldSpellings fp.1 := by
        rw [placeholderTable_spellings fp hfp]
        exact hph
      have := h fp.1 ht ph hsp
      rw [← hopeq]
      exact this
    · rw [if_neg ht] at hopin
      exact absurd hopin (List.not_mem_nil op)
  have h1 : fillPara data p = p := foldl_replacePara_id (fillOps data) p hops
  refine ⟨h1, by simp only [h1], ?_⟩
  intro d
  have h2 : (fill_proposal_with_data d data).1 = d.mapParas (fillPara data) :=
    fill_eq_mapParas (fillOps data) d
  rw [h2, allParas_mapParas]

/-- Data whose only truthy field is the client name. -/
def dataC8 : ProposalData := { nome_cliente := .pstr ("Acme".toList) }

/-- A paragraph holding only the placeholder of the empty `seguro` field. -/
def paraC8 : Para := ⟨[⟨"\x7b\x7bSEGURO\x7d\x7d pendente".toList, some 3⟩], "Normal"⟩

/-- C8 witness: with every field empty except the client name, a
paragraph holding only the `seguro` placeholder is untouched. -/
theorem claim_C8_witness :
    fillPara dataC8 paraC8 = paraC8 ∧
    fillPara dataC8 (fillPara dataC8 paraC8) = fillPara dataC8 paraC8 ∧
    ∀ d : Doc, (fill_proposal_with_data d dataC8).1.allParas =
      d.allParas.map (fillPara dataC8) :=
  claim_C8_theorem dataC8 paraC8 (by intro f; cases f <;> decide)

/-- C9: the monetary formatting used by the fill renders 50000.0 as
exactly `"R$ 50.000,00"`, and on every value it is the `"R$ "` prefix
followed by the standard two-decimal comma/dot rendering with thousands
and decimal separators swapped character by character. -/
theorem claim_C9_theorem :
    formatFieldValue .custo (.pnum 50000) = "R$ 50.000,00".toList ∧
    ∀ q : ℚ, moneyFmt q = ("R$ ".toList) ++ (fmtUS q).map swapSep := by
  constructor
  · show moneyFmt 50000 = "R$ 50.000,00".toList
    have h : round ((50000 : ℚ) * 100) = 5000000 := by norm_num [round_eq]
    simp only [moneyFmt, fmtUS, h]
    decide
  · intro q
    have hnX : ∀ c ∈ ("R$ ".toList) ++ fmtUS q, c ≠ 'X' := by
      intro c hc
      rcases List.mem_append.mp hc with h | h
      · rcases (by simpa using h : c = 'R' ∨ c = '$' ∨ c = ' ') with rfl | rfl | rfl <;>
          decide
      · exact fmtUS_no_X q c h
    calc moneyFmt q
        = (("R$ ".toList) ++ fmtUS q).map swapSep := money_swap _ hnX
      _ = ("R$ ".toList).map swapSep ++ (fmtUS q).map swapSep :=
          List.map_append swapSep _ _
      _ = ("R$ ".toList) ++ (fmtUS q).map swapSep := by
          have : ("R$ ".toList).map swapSep = "R$ ".toList := by decide
          rw [this]
